import Mathlib

/-!
Verification of the webgl-chroma-key keying pipeline.

The shaders (src/lib/shaders/phase6.wgsl, phase7-choke.wgsl,
phase7-soften.wgsl, phase7-output.wgsl and the GLSL variants) are embedded
shallowly over the real numbers: GLSL/WGSL `f32` arithmetic is idealised as
real arithmetic, `length` is the Euclidean norm, `pow` is `Real.rpow`, and
`fract` is `Int.fract`.  Division checked against zero divisors (the IEEE
NaN/Inf cases) is modelled by `Option`-valued variants (`checkedDiv`).
A fragment pass that samples its input texture around the current pixel is
modelled as a function from the pixel offset (in pixels, real-valued) to the
sampled texel.
-/

namespace ChromaKey

/-- A GLSL `vec3` of reals: components `x`, `y`, `z`. -/
structure Vec3 where
  x : ℝ
  y : ℝ
  z : ℝ

/-- GLSL `clamp(v, lo, hi) = min(max(v, lo), hi)`. -/
noncomputable def clamp (v lo hi : ℝ) : ℝ := min (max v lo) hi

/-- GLSL `mix(a, b, t) = a*(1-t) + b*t`. -/
noncomputable def mix (a b t : ℝ) : ℝ := a * (1 - t) + b * t

/-- GLSL `smoothstep(e0, e1, v)`. -/
noncomputable def smoothstep (e0 e1 v : ℝ) : ℝ :=
  let t := clamp ((v - e0) / (e1 - e0)) 0 1
  t * t * (3 - 2 * t)

/-- GLSL `length(vec3)`: the Euclidean norm. -/
noncomputable def length3 (v : Vec3) : ℝ :=
  Real.sqrt (v.x * v.x + v.y * v.y + v.z * v.z)

/-- GLSL `dot(c, vec3(0.299, 0.587, 0.114))`: the luma of a colour,
as computed in `fs` and `suppressSpill` (phase6.wgsl lines 156 and 180). -/
noncomputable def luma3 (c : Vec3) : ℝ :=
  c.x * 0.299 + c.y * 0.587 + c.z * 0.114

/-- `rgb2hsv` from phase6.wgsl lines 58-78 (identically in phase4.frag
lines 16-37): max/min/delta formulation, hue folded into [0,1) by `fract`,
and the zero-delta branch returning hue 0, saturation 0. -/
noncomputable def rgb2hsv (c : Vec3) : Vec3 :=
  let Cmax := max c.x (max c.y c.z)
  let Cmin := min c.x (min c.y c.z)
  let delta := Cmax - Cmin
  if Cmax > Cmin then
    let s := delta / Cmax
    let h0 :=
      if c.x = Cmax then (c.y - c.z) / delta
      else if c.y = Cmax then 2 + (c.z - c.x) / delta
      else 4 + (c.x - c.y) / delta
    ⟨Int.fract (h0 / 6), s, Cmax⟩
  else ⟨0, 0, Cmax⟩

/-- Division that refuses a zero divisor, modelling the IEEE NaN/Inf
outcomes of `x / 0` in the shader. -/
noncomputable def checkedDiv (a b : ℝ) : Option ℝ :=
  if b = 0 then none else some (a / b)

/-- `rgb2hsv` with every division checked against a zero divisor:
`none` models a NaN/Inf escaping the conversion. -/
noncomputable def rgb2hsvChecked (c : Vec3) : Option Vec3 :=
  let Cmax := max c.x (max c.y c.z)
  let Cmin := min c.x (min c.y c.z)
  let delta := Cmax - Cmin
  if Cmax > Cmin then
    (checkedDiv delta Cmax).bind (fun s =>
      (if c.x = Cmax then checkedDiv (c.y - c.z) delta
       else if c.y = Cmax then (checkedDiv (c.z - c.x) delta).map (fun q => 2 + q)
       else (checkedDiv (c.x - c.y) delta).map (fun q => 4 + q)).map
        (fun h0 => ⟨Int.fract (h0 / 6), s, Cmax⟩))
  else some ⟨0, 0, Cmax⟩

/-- The uniforms consumed by the keying shaders (struct `Uniforms`,
phase6.wgsl lines 9-24). -/
structure Params where
  keyColor : Vec3
  transparency : ℝ
  tolerance : ℝ
  highlight : ℝ
  shadow : ℝ
  pedestal : ℝ
  spillSuppression : ℝ
  contrast : ℝ
  midPoint : ℝ
  choke : ℝ
  soften : ℝ
  outputMode : ℤ

/-- The hue-wraparound step of `chromaKey` (phase6.wgsl lines 92-94):
`if (abs(diff.x) > 0.5) diff.x = diff.x - sign(diff.x)`. -/
noncomputable def hueWrap (d : ℝ) : ℝ :=
  if |d| > 0.5 then d - Real.sign d else d

/-- The weighted HSV distance computed by `chromaKey`
(phase6.wgsl lines 81-96). -/
noncomputable def chromaDist (u : Params) (color : Vec3) : ℝ :=
  let hsv := rgb2hsv color
  let targetHsv := rgb2hsv u.keyColor
  let tolFactor := 1 + (u.tolerance - 50) * 0.02
  let weights : Vec3 := ⟨4 * tolFactor, 1 * tolFactor, 2 * tolFactor⟩
  let diff : Vec3 :=
    ⟨hueWrap (targetHsv.x - hsv.x), targetHsv.y - hsv.y, targetHsv.z - hsv.z⟩
  length3 ⟨weights.x * diff.x, weights.y * diff.y, weights.z * diff.z⟩

/-- The base alpha of `chromaKey`, before the luminance bias and pedestal
(phase6.wgsl lines 99-103): `clamp(slope * dist - offset, 0, 1)`. -/
noncomputable def baseAlpha (u : Params) (color : Vec3) : ℝ :=
  let slope := 3 + (u.transparency - 50) * 0.06
  let offset := 1.5 - (u.transparency - 50) * 0.03
  clamp (slope * chromaDist u color - offset) 0 1

/-- The contrast / mid-point matte-cleanup step of `chromaKey`
(phase6.wgsl lines 122-140, part_006 lines 85-104): a no-op unless
`contrast > 1`, otherwise a power S-curve around `pivot = midPoint*0.01`. -/
noncomputable def applyContrast (alpha contrast midPoint : ℝ) : ℝ :=
  if contrast > 1 then
    let pivot := midPoint * 0.01
    let contrastAmount := contrast * 0.01
    if alpha < pivot then
      pivot * (alpha / pivot) ^ (1 + contrastAmount)
    else
      pivot + (1 - pivot) * ((alpha - pivot) / (1 - pivot)) ^ (1 / (1 + contrastAmount))
  else alpha

/-- The contrast step with its two divisions checked against zero
divisors; `none` models a NaN/Inf produced by the shader arithmetic. -/
noncomputable def applyContrastChecked (alpha contrast midPoint : ℝ) : Option ℝ :=
  if contrast > 1 then
    let pivot := midPoint * 0.01
    let contrastAmount := contrast * 0.01
    if alpha < pivot then
      (checkedDiv alpha pivot).map (fun t => pivot * t ^ (1 + contrastAmount))
    else
      (checkedDiv (alpha - pivot) (1 - pivot)).map
        (fun t => pivot + (1 - pivot) * t ^ (1 / (1 + contrastAmount)))
  else some alpha

/-- The pre-cleanup alpha of `chromaKey` (phase6.wgsl lines 80-120): base
alpha, highlight and shadow luminance biases, pedestal shift, and the
clamp before matte cleanup. -/
noncomputable def preContrastAlpha (u : Params) (color : Vec3) (luminance : ℝ) : ℝ :=
  let alpha0 := baseAlpha u color
  let highlightFactor := (u.highlight - 50) * 0.02
  let highlightMask := smoothstep 0.5 1 luminance
  let alpha1 := alpha0 - highlightMask * highlightFactor
  let shadowFactor := (u.shadow - 50) * 0.02
  let shadowMask := smoothstep 0.5 0 luminance
  let alpha2 := alpha1 + shadowMask * shadowFactor
  let pedestalShift := u.pedestal * 0.01
  clamp (alpha2 + pedestalShift) 0 1

/-- `chromaKey` from phase6.wgsl lines 80-143: the pre-cleanup alpha,
the contrast cleanup, and the final clamp to [0,1]. -/
noncomputable def chromaKey (u : Params) (color : Vec3) (luminance : ℝ) : ℝ :=
  clamp (applyContrast (preContrastAlpha u color luminance) u.contrast u.midPoint) 0 1

/-- `chromaKey` with the contrast cleanup's divisions checked against zero
divisors: `none` models a NaN reaching the final clamp.  The pipeline's
remaining divisions have constant nonzero divisors (`smoothstep` at edges
0.5/1 and 0.5/0) or are guarded (`rgb2hsv`, settled separately). -/
noncomputable def chromaKeyChecked (u : Params) (color : Vec3) (luminance : ℝ) : Option ℝ :=
  (applyContrastChecked (preContrastAlpha u color luminance) u.contrast u.midPoint).map
    (fun a => clamp a 0 1)

/-- `suppressSpill` from phase6.wgsl lines 145-173: early return on
`alpha < 0.05 || spillSuppression < 1`, key-channel pull toward luma for a
green- or blue-family key hue, then a global desaturation by
`suppressionStrength * 0.4`. -/
noncomputable def suppressSpill (u : Params) (color : Vec3) (alpha : ℝ) : Vec3 :=
  if alpha < 0.05 ∨ u.spillSuppression < 1 then color
  else
    let suppressionStrength := u.spillSuppression * 0.01
    let keyHSV := rgb2hsv u.keyColor
    let luma := luma3 color
    let result : Vec3 :=
      if 0.2 < keyHSV.x ∧ keyHSV.x < 0.5 then
        ⟨color.x, mix color.y luma suppressionStrength, color.z⟩
      else if 0.45 < keyHSV.x ∧ keyHSV.x < 0.75 then
        ⟨color.x, color.y, mix color.z luma suppressionStrength⟩
      else color
    ⟨mix result.x luma (suppressionStrength * 0.4),
     mix result.y luma (suppressionStrength * 0.4),
     mix result.z luma (suppressionStrength * 0.4)⟩

/-- The Status-mode colour coding of `fs` (phase7-output.wgsl lines 59-70,
identically phase6.wgsl lines 197-208). -/
noncomputable def statusColor (alpha : ℝ) : Vec3 :=
  if alpha > 0.95 then ⟨1, 1, 1⟩
  else if alpha < 0.05 then ⟨0, 0, 0⟩
  else if alpha > 0.7 then ⟨0.3, 0.5, 1⟩
  else if alpha > 0.4 then ⟨1, 1, 0⟩
  else ⟨1, 0, 0⟩

/-- The output-mode selection of `fs` in phase7-output.wgsl lines 46-75,
acting on an input texel `(rgb, alpha)`. -/
noncomputable def outputFS (mode : ℤ) (c : Vec3 × ℝ) : Vec3 × ℝ :=
  if mode = 0 then c
  else if mode = 1 then (⟨c.2, c.2, c.2⟩, 1)
  else if mode = 2 then (statusColor c.2, 1)
  else c

/-- The 5x5 sampling window of the choke and soften passes, traversed in
loop order (`y` outer, `x` inner, each from -2 to 2); an entry is the
`(x, y)` offset as reals, as built by `vec2f(f32(x), f32(y))`. -/
def offsets5x5 : List (ℝ × ℝ) :=
  [(-2, -2), (-1, -2), (0, -2), (1, -2), (2, -2),
   (-2, -1), (-1, -1), (0, -1), (1, -1), (2, -1),
   (-2,  0), (-1,  0), (0,  0), (1,  0), (2,  0),
   (-2,  1), (-1,  1), (0,  1), (1,  1), (2,  1),
   (-2,  2), (-1,  2), (0,  2), (1,  2), (2,  2)]

/-- The erosion loop of the choke pass (phase7-choke.wgsl lines 59-71):
minimum of the sampled alphas within `radius`, seeded with 1. -/
noncomputable def chokeErode (radius : ℝ) (tex : ℝ → ℝ → Vec3 × ℝ) : ℝ :=
  offsets5x5.foldl (fun acc p =>
    if Real.sqrt (p.1 * p.1 + p.2 * p.2) ≤ radius then min acc (tex p.1 p.2).2 else acc) 1

/-- The dilation loop of the choke pass (phase7-choke.wgsl lines 72-85):
maximum of the sampled alphas within `radius`, seeded with 0. -/
noncomputable def chokeDilate (radius : ℝ) (tex : ℝ → ℝ → Vec3 × ℝ) : ℝ :=
  offsets5x5.foldl (fun acc p =>
    if Real.sqrt (p.1 * p.1 + p.2 * p.2) ≤ radius then max acc (tex p.1 p.2).2 else acc) 0

/-- `fs` of phase7-choke.wgsl lines 45-88 at one output pixel.  `tex` maps
a pixel offset to the sampled texel; the centre texel is `tex 0 0`.
Early return when `|choke| < 0.1`; otherwise the rgb of the centre with the
eroded (choke > 0) or dilated (choke < 0) alpha, radius `|choke| * 0.15`. -/
noncomputable def chokeFS (choke : ℝ) (tex : ℝ → ℝ → Vec3 × ℝ) : Vec3 × ℝ :=
  let centerColor := tex 0 0
  if |choke| < 0.1 then centerColor
  else
    let radius := |choke| * 0.15
    ((centerColor).1, if choke > 0 then chokeErode radius tex else chokeDilate radius tex)

/-- The alphas sampled by the choke pass: those texels of the 5x5 window
whose offset lies within `radius` of the centre. -/
noncomputable def chokeSampled (radius : ℝ) (tex : ℝ → ℝ → Vec3 × ℝ) : List ℝ :=
  (offsets5x5.filter (fun p => decide (Real.sqrt (p.1 * p.1 + p.2 * p.2) ≤ radius))).map
    (fun p => (tex p.1 p.2).2)

/-- The accumulation loop of the soften pass (phase7-soften.wgsl lines
55-71): the pair `(sum, weight)` of distance-weighted alpha sum and weight
sum over the samples within `desiredRadius`, weight `1 / (1 + dist)`. -/
noncomputable def softenAcc (desiredRadius : ℝ) (tex : ℝ → ℝ → Vec3 × ℝ) : ℝ × ℝ :=
  offsets5x5.foldl (fun acc p =>
    let dist := Real.sqrt (p.1 * p.1 + p.2 * p.2)
    if dist ≤ desiredRadius then
      (acc.1 + (tex p.1 p.2).2 * (1 / (1 + dist)), acc.2 + 1 / (1 + dist))
    else acc) (0, 0)

/-- `fs` of phase7-soften.wgsl lines 45-76 at one output pixel: early
return when `soften < 0.1`, otherwise the centre rgb with the blurred alpha
`sum / max(weight, 0.001)`, radius `soften * 0.2`. -/
noncomputable def softenFS (soften : ℝ) (tex : ℝ → ℝ → Vec3 × ℝ) : Vec3 × ℝ :=
  let centerColor := tex 0 0
  if soften < 0.1 then centerColor
  else
    let acc := softenAcc (soften * 0.2) tex
    ((centerColor).1, acc.1 / max acc.2 0.001)

/-- Stated from the spec, for comparison with `baseAlpha`: the linear-ramp
matte form `alpha = clamp(slope*dist - offset, 0, 1)` with
`slope = 3 + (transparency-50)*0.06`, `offset = 1.5 - (transparency-50)*0.03`,
and `dist` the Euclidean norm of the componentwise product of the weights
`(4,1,2) * (1 + (tolerance-50)*0.02)` with the hue-wrapped HSV difference
`keyHSV - pixelHSV`. -/
noncomputable def specBaseAlpha (u : Params) (pixel : Vec3) : ℝ :=
  let keyHSV := rgb2hsv u.keyColor
  let pixHSV := rgb2hsv pixel
  let tolFactor := 1 + (u.tolerance - 50) * 0.02
  let dh := hueWrap (keyHSV.x - pixHSV.x)
  let ds := keyHSV.y - pixHSV.y
  let dv := keyHSV.z - pixHSV.z
  let dist :=
    Real.sqrt ((4 * tolFactor * dh) ^ 2 + (1 * tolFactor * ds) ^ 2 + (2 * tolFactor * dv) ^ 2)
  let slope := 3 + (u.transparency - 50) * 0.06
  let offset := 1.5 - (u.transparency - 50) * 0.03
  max 0 (min (slope * dist - offset) 1)

/-! ### Helper lemmas -/

theorem clamp01_eq (x : ℝ) : clamp x 0 1 = max 0 (min x 1) := by
  unfold clamp
  rcases le_total x 0 with h | h
  · rw [max_eq_right h, min_eq_left (h.trans zero_le_one),
      min_eq_left zero_le_one, max_eq_left h]
  · rw [max_eq_left h, max_eq_right (le_min h zero_le_one)]

theorem clamp01_mem (x : ℝ) : clamp x 0 1 ∈ Set.Icc (0 : ℝ) 1 := by
  unfold clamp
  exact ⟨le_min (le_max_right x 0) zero_le_one, min_le_right _ 1⟩

theorem foldl_preserve {α β : Type} (P : α → Prop) (f : α → β → α) :
    ∀ (l : List β) (init : α), P init → (∀ a b, P a → P (f a b)) →
      P (l.foldl f init)
  | [], init, h0, _ => h0
  | b :: t, init, h0, hf => foldl_preserve P f t (f init b) (hf init b h0) hf

theorem foldl_ite_filter {α β : Type} (p : β → Prop) [DecidablePred p] (g : α → β → α) :
    ∀ (l : List β) (init : α),
      l.foldl (fun acc b => if p b then g acc b else acc) init
        = (l.filter (fun b => decide (p b))).foldl g init := by
  intro l
  induction l with
  | nil => intro init; rfl
  | cons b t ih =>
    intro init
    by_cases hp : p b <;>
      simp [List.foldl_cons, List.filter_cons, hp, ih]

theorem foldl_min_le_init : ∀ (l : List ℝ) (init : ℝ), l.foldl min init ≤ init
  | [], _ => le_refl _
  | b :: t, init =>
    le_trans (foldl_min_le_init t (min init b)) (min_le_left init b)

theorem foldl_min_le_of_mem :
    ∀ (l : List ℝ) (init v : ℝ), v ∈ l → l.foldl min init ≤ v := by
  intro l
  induction l with
  | nil => intro init v h; exact absurd h (List.not_mem_nil v)
  | cons b t ih =>
    intro init v h
    rcases List.mem_cons.mp h with h | h
    · subst h
      exact le_trans (foldl_min_le_init t (min init v)) (min_le_right init v)
    · exact ih (min init b) v h

theorem foldl_min_eq_init_or_mem :
    ∀ (l : List ℝ) (init : ℝ), l.foldl min init = init ∨ l.foldl min init ∈ l := by
  intro l
  induction l with
  | nil => intro init; exact Or.inl rfl
  | cons b t ih =>
    intro init
    rcases ih (min init b) with h | h
    · rcases min_choice init b with hc | hc
      · exact Or.inl (by rw [List.foldl_cons, h, hc])
      · exact Or.inr (by rw [List.foldl_cons, h, hc]; exact List.mem_cons_self b t)
    · exact Or.inr (List.mem_cons_of_mem b h)

theorem foldl_max_le_init : ∀ (l : List ℝ) (init : ℝ), init ≤ l.foldl max init
  | [], _ => le_refl _
  | b :: t, init =>
    le_trans (le_max_left init b) (foldl_max_le_init t (max init b))

theorem foldl_max_le_of_mem :
    ∀ (l : List ℝ) (init v : ℝ), v ∈ l → v ≤ l.foldl max init := by
  intro l
  induction l with
  | nil => intro init v h; exact absurd h (List.not_mem_nil v)
  | cons b t ih =>
    intro init v h
    rcases List.mem_cons.mp h with h | h
    · subst h
      exact le_trans (le_max_right init v) (foldl_max_le_init t (max init v))
    · exact ih (max init b) v h

theorem foldl_max_eq_init_or_mem :
    ∀ (l : List ℝ) (init : ℝ), l.foldl max init = init ∨ l.foldl max init ∈ l := by
  intro l
  induction l with
  | nil => intro init; exact Or.inl rfl
  | cons b t ih =>
    intro init
    rcases ih (max init b) with h | h
    · rcases max_choice init b with hc | hc
      · exact Or.inl (by rw [List.foldl_cons, h, hc])
      · exact Or.inr (by rw [List.foldl_cons, h, hc]; exact List.mem_cons_self b t)
    · exact Or.inr (List.mem_cons_of_mem b h)

theorem chokeErode_eq_foldl (radius : ℝ) (tex : ℝ → ℝ → Vec3 × ℝ) :
    chokeErode radius tex = (chokeSampled radius tex).foldl min 1 := by
  unfold chokeErode chokeSampled
  rw [foldl_ite_filter (fun q : ℝ × ℝ => Real.sqrt (q.1 * q.1 + q.2 * q.2) ≤ radius)
    (fun acc q => min acc (tex q.1 q.2).2), List.foldl_map]

theorem chokeDilate_eq_foldl (radius : ℝ) (tex : ℝ → ℝ → Vec3 × ℝ) :
    chokeDilate radius tex = (chokeSampled radius tex).foldl max 0 := by
  unfold chokeDilate chokeSampled
  rw [foldl_ite_filter (fun q : ℝ × ℝ => Real.sqrt (q.1 * q.1 + q.2 * q.2) ≤ radius)
    (fun acc q => max acc (tex q.1 q.2).2), List.foldl_map]

theorem center_mem_chokeSampled (radius : ℝ) (h0 : 0 ≤ radius)
    (tex : ℝ → ℝ → Vec3 × ℝ) : (tex 0 0).2 ∈ chokeSampled radius tex := by
  unfold chokeSampled
  refine List.mem_map.mpr ⟨(0, 0), List.mem_filter.mpr ⟨by simp [offsets5x5], ?_⟩, rfl⟩
  simp only [decide_eq_true_eq]
  have : Real.sqrt ((0 : ℝ) * 0 + 0 * 0) = 0 := by
    rw [show (0 : ℝ) * 0 + 0 * 0 = 0 by ring, Real.sqrt_zero]
  rw [this]
  exact h0

/-! ### Claim theorems -/

/-- C1: for every RGB pixel and every parameter set, the matte generator's
base alpha (before luminance bias and pedestal) equals
`clamp(slope*dist - offset, 0, 1)` with `slope = 3 + (transparency-50)*0.06`,
`offset = 1.5 - (transparency-50)*0.03`, and `dist` the Euclidean norm of the
componentwise product of the weights `(4,1,2)*(1 + (tolerance-50)*0.02)` with
the hue-wrapped HSV difference `keyHSV - pixelHSV`. -/
theorem baseAlpha_eq_spec (u : Params) (color : Vec3) :
    baseAlpha u color = specBaseAlpha u color := by
  unfold baseAlpha specBaseAlpha chromaDist length3
  rw [clamp01_eq]
  ring_nf

/-- C2: when the absolute hue difference exceeds 0.5, `sign` of the
difference is subtracted, and the wrapped difference of two hues in [0,1]
lands in [-0.5, 0.5]; in particular key hue 0.02 against pixel hue 0.98
wraps to 0.04, not -0.96. -/
theorem hueWrap_shorter_arc (hk hp : ℝ) (hk0 : 0 ≤ hk) (hk1 : hk ≤ 1)
    (hp0 : 0 ≤ hp) (hp1 : hp ≤ 1) (hfar : |hk - hp| > 0.5) :
    hueWrap (hk - hp) = (hk - hp) - Real.sign (hk - hp) ∧
      hueWrap (hk - hp) ∈ Set.Icc (-(0.5) : ℝ) 0.5 ∧
      hueWrap ((0.02 : ℝ) - 0.98) = 0.04 := by
  have h1 : hueWrap (hk - hp) = (hk - hp) - Real.sign (hk - hp) := by
    unfold hueWrap
    rw [if_pos hfar]
  refine ⟨h1, ?_, ?_⟩
  · rcases lt_abs.mp hfar with h | h
    · have hs : Real.sign (hk - hp) = 1 := Real.sign_of_pos (by linarith)
      rw [h1, hs]
      exact Set.mem_Icc.mpr ⟨by linarith, by linarith⟩
    · have hs : Real.sign (hk - hp) = -1 := Real.sign_of_neg (by linarith)
      rw [h1, hs]
      exact Set.mem_Icc.mpr ⟨by linarith, by linarith⟩
  · have habs : |(0.02 : ℝ) - 0.98| = 0.96 := by
      rw [abs_of_neg (by norm_num : (0.02 : ℝ) - 0.98 < 0)]
      norm_num
    unfold hueWrap
    rw [if_pos (by rw [habs]; norm_num), Real.sign_of_neg (by norm_num : (0.02 : ℝ) - 0.98 < 0)]
    norm_num

/-- Witness for C2 at key hue 0.02 and pixel hue 0.98. -/
theorem hueWrap_shorter_arc_witness :
    hueWrap ((0.02 : ℝ) - 0.98) ∈ Set.Icc (-(0.5) : ℝ) 0.5 :=
  (hueWrap_shorter_arc 0.02 0.98 (by norm_num) (by norm_num) (by norm_num) (by norm_num)
    (by rw [abs_of_neg (by norm_num : (0.02 : ℝ) - 0.98 < 0)]; norm_num)).2.1

theorem applyContrastChecked_eq (alpha contrast midPoint : ℝ)
    (ha0 : 0 ≤ alpha) (hm1 : midPoint < 100) :
    applyContrastChecked alpha contrast midPoint
      = some (applyContrast alpha contrast midPoint) := by
  unfold applyContrastChecked applyContrast checkedDiv
  by_cases hc : contrast > 1
  · rw [if_pos hc, if_pos hc]
    by_cases h : alpha < midPoint * 0.01
    · rw [if_pos h, if_pos h,
        if_neg (show midPoint * 0.01 ≠ 0 from fun h0 => by rw [h0] at h; linarith)]
      rfl
    · rw [if_neg h, if_neg h,
        if_neg (show (1 : ℝ) - midPoint * 0.01 ≠ 0 from fun h0 => by linarith)]
      rfl
  · rw [if_neg hc, if_neg hc]

/-- C3 counterexample: at midPoint exactly 100 the pivot is 1 and the
cleanup of input alpha `100/100 = 1` evaluates `(1-1)/(1-1) = 0/0`, a
zero-divisor division (IEEE NaN), so the cleanup does not return the
pivot there although contrast 100 > 0 and midPoint 100 is in [0,100]. -/
theorem applyContrast_fixed_point_counterexample :
    (0 : ℝ) < 100 ∧ (100 : ℝ) ∈ Set.Icc (0 : ℝ) 100 ∧
      applyContrastChecked ((100 : ℝ) / 100) 100 100 ≠ some ((100 : ℝ) / 100) := by
  refine ⟨by norm_num, Set.mem_Icc.mpr ⟨by norm_num, by norm_num⟩, ?_⟩
  have hnone : applyContrastChecked ((100 : ℝ) / 100) 100 100 = none := by
    unfold applyContrastChecked checkedDiv
    rw [if_pos (by norm_num : (100 : ℝ) > 1),
      if_neg (by norm_num : ¬((100 : ℝ) / 100 < 100 * 0.01)),
      if_pos (by norm_num : (1 : ℝ) - 100 * 0.01 = 0)]
    rfl
  rw [hnone]
  intro hx
  exact Option.noConfusion hx

/-- C3 amended: for every contrast > 0 and every midPoint in [0,100), the
contrast cleanup fixes the pivot with no zero-divisor division: the
checked cleanup of input alpha `midPoint/100` returns
`some (midPoint/100)` exactly; at midPoint = 100 it is 0/0 instead. -/
theorem applyContrast_fixed_point_amended (contrast midPoint : ℝ) (hc : 0 < contrast)
    (hm : midPoint ∈ Set.Ico (0 : ℝ) 100) :
    applyContrastChecked (midPoint / 100) contrast midPoint = some (midPoint / 100) := by
  unfold applyContrastChecked checkedDiv
  by_cases h : contrast > 1
  · rw [if_pos h]
    have hpiv : midPoint * 0.01 = midPoint / 100 := by
      rw [show (0.01 : ℝ) = 1 / 100 by norm_num]
      ring
    rw [hpiv, if_neg (lt_irrefl (midPoint / 100)),
      if_neg (show (1 : ℝ) - midPoint / 100 ≠ 0 from fun h0 => by
        have h2 := hm.2
        linarith),
      sub_self, zero_div, Option.map_some',
      Real.zero_rpow (one_div_ne_zero (by linarith : (0 : ℝ) < 1 + contrast * 0.01).ne'),
      mul_zero, add_zero]
  · rw [if_neg h]

/-- Witness for the amended C3 at contrast 100, midPoint 50. -/
theorem applyContrast_fixed_point_amended_witness :
    applyContrastChecked ((50 : ℝ) / 100) 100 50 = some ((50 : ℝ) / 100) :=
  applyContrast_fixed_point_amended 100 50 (by norm_num)
    (Set.mem_Ico.mpr ⟨by norm_num, by norm_num⟩)

theorem chokeSampled_small (radius : ℝ) (h0 : 0 ≤ radius) (h1 : radius < 1)
    (tex : ℝ → ℝ → Vec3 × ℝ) : chokeSampled radius tex = [(tex 0 0).2] := by
  have hno : ∀ u v : ℝ, 1 ≤ u * u + v * v →
      (decide (Real.sqrt (u * u + v * v) ≤ radius)) = false := by
    intro u v h
    apply decide_eq_false
    intro hle
    have h2 : (1 : ℝ) ≤ Real.sqrt (u * u + v * v) := by
      rw [show (1 : ℝ) = Real.sqrt 1 by rw [Real.sqrt_one]]
      exact Real.sqrt_le_sqrt h
    linarith
  have hyes : (decide (Real.sqrt ((0 : ℝ) * 0 + 0 * 0) ≤ radius)) = true := by
    apply decide_eq_true
    rw [show (0 : ℝ) * 0 + 0 * 0 = 0 by ring, Real.sqrt_zero]
    exact h0
  unfold chokeSampled offsets5x5
  simp only [List.filter_cons, List.filter_nil,
    hno (-2) (-2) (by norm_num), hno (-1) (-2) (by norm_num), hno 0 (-2) (by norm_num),
    hno 1 (-2) (by norm_num), hno 2 (-2) (by norm_num),
    hno (-2) (-1) (by norm_num), hno (-1) (-1) (by norm_num), hno 0 (-1) (by norm_num),
    hno 1 (-1) (by norm_num), hno 2 (-1) (by norm_num),
    hno (-2) 0 (by norm_num), hno (-1) 0 (by norm_num),
    hno 1 0 (by norm_num), hno 2 0 (by norm_num),
    hno (-2) 1 (by norm_num), hno (-1) 1 (by norm_num), hno 0 1 (by norm_num),
    hno 1 1 (by norm_num), hno 2 1 (by norm_num),
    hno (-2) 2 (by norm_num), hno (-1) 2 (by norm_num), hno 0 2 (by norm_num),
    hno 1 2 (by norm_num), hno 2 2 (by norm_num), hyes]
  simp

theorem foldl_min_char (l : List ℝ) (c : ℝ) (hc : c ∈ l) (hc1 : c ≤ 1) :
    l.foldl min 1 ∈ l ∧ ∀ v ∈ l, l.foldl min 1 ≤ v := by
  constructor
  · rcases foldl_min_eq_init_or_mem l 1 with h | h
    · have h1 : l.foldl min 1 ≤ c := foldl_min_le_of_mem l 1 c hc
      rw [h] at h1 ⊢
      rw [← le_antisymm hc1 h1]
      exact hc
    · exact h
  · exact fun v hv => foldl_min_le_of_mem l 1 v hv

theorem foldl_max_char (l : List ℝ) (c : ℝ) (hc : c ∈ l) (hc0 : 0 ≤ c) :
    l.foldl max 0 ∈ l ∧ ∀ v ∈ l, v ≤ l.foldl max 0 := by
  constructor
  · rcases foldl_max_eq_init_or_mem l 0 with h | h
    · have h1 : c ≤ l.foldl max 0 := foldl_max_le_of_mem l 0 c hc
      rw [h] at h1 ⊢
      rw [← le_antisymm h1 hc0]
      exact hc
    · exact h
  · exact fun v hv => foldl_max_le_of_mem l 0 v hv

/-- C6: over a matte with alphas in [0,1], a positive choke outputs the
minimum of the alphas sampled within radius `|choke| * 0.15` (erosion), a
negative choke the maximum (dilation), `|choke| < 0.1` returns the input
texel unchanged, and so does the soften pass for `soften < 0.1` (in
particular `soften = 0`). -/
theorem chokePass_min_max_and_noops (choke : ℝ) (tex : ℝ → ℝ → Vec3 × ℝ)
    (hb : ∀ x y : ℝ, (tex x y).2 ∈ Set.Icc (0 : ℝ) 1) :
    (0 < choke →
      (chokeFS choke tex).2 ∈ chokeSampled (|choke| * 0.15) tex ∧
        ∀ v ∈ chokeSampled (|choke| * 0.15) tex, (chokeFS choke tex).2 ≤ v) ∧
    (choke < 0 →
      (chokeFS choke tex).2 ∈ chokeSampled (|choke| * 0.15) tex ∧
        ∀ v ∈ chokeSampled (|choke| * 0.15) tex, v ≤ (chokeFS choke tex).2) ∧
    (|choke| < 0.1 → chokeFS choke tex = tex 0 0) ∧
    (∀ s : ℝ, s < 0.1 → softenFS s tex = tex 0 0) := by
  have hr0 : (0 : ℝ) ≤ |choke| * 0.15 := by positivity
  have hpass : |choke| < 0.1 → chokeFS choke tex = tex 0 0 := by
    intro h
    unfold chokeFS
    rw [if_pos h]
  refine ⟨?_, ?_, hpass, ?_⟩
  · intro hpos
    by_cases hsm : |choke| < 0.1
    · have hr1 : |choke| * 0.15 < 1 := by linarith
      rw [chokeSampled_small _ hr0 hr1, hpass hsm]
      exact ⟨List.mem_singleton_self _, by
        intro v hv
        rw [List.mem_singleton.mp hv]⟩
    · have hfs2 : (chokeFS choke tex).2 = chokeErode (|choke| * 0.15) tex := by
        unfold chokeFS
        rw [if_neg hsm]
        dsimp only
        rw [if_pos hpos]
      rw [hfs2, chokeErode_eq_foldl]
      exact foldl_min_char _ _ (center_mem_chokeSampled _ hr0 tex) (hb 0 0).2
  · intro hneg
    by_cases hsm : |choke| < 0.1
    · have hr1 : |choke| * 0.15 < 1 := by linarith
      rw [chokeSampled_small _ hr0 hr1, hpass hsm]
      exact ⟨List.mem_singleton_self _, by
        intro v hv
        rw [List.mem_singleton.mp hv]⟩
    · have hfs2 : (chokeFS choke tex).2 = chokeDilate (|choke| * 0.15) tex := by
        unfold chokeFS
        rw [if_neg hsm]
        dsimp only
        rw [if_neg (not_lt.mpr hneg.le)]
      rw [hfs2, chokeDilate_eq_foldl]
      exact foldl_max_char _ _ (center_mem_chokeSampled _ hr0 tex) (hb 0 0).1
  · intro s hs
    unfold softenFS
    rw [if_pos hs]

/-- Witness for C6 on a constant matte of value 1/2 with choke 10. -/
theorem chokePass_min_max_and_noops_witness :
    (chokeFS 10 (fun _ _ => (⟨0, 0, 0⟩, 1 / 2))).2
      ∈ chokeSampled (|(10 : ℝ)| * 0.15) (fun _ _ => (⟨0, 0, 0⟩, 1 / 2)) :=
  ((chokePass_min_max_and_noops 10 (fun _ _ => (⟨0, 0, 0⟩, 1 / 2))
    (fun _ _ => Set.mem_Icc.mpr ⟨by norm_num, by norm_num⟩)).1 (by norm_num)).1

/-- C10: once past its enable guard but with sampling radius below one
pixel (`0.1 ≤ |choke|` and `|choke| * 0.15 < 1`), the choke pass is an
exact identity on the alpha of a [0,1] matte: only the centre offset
passes the distance test, and min/max over that single sample returns the
input alpha. -/
theorem chokePass_small_radius_identity (choke : ℝ) (tex : ℝ → ℝ → Vec3 × ℝ)
    (h1 : 0.1 ≤ |choke|) (h2 : |choke| * 0.15 < 1)
    (hb : ∀ x y : ℝ, (tex x y).2 ∈ Set.Icc (0 : ℝ) 1) :
    (chokeFS choke tex).2 = (tex 0 0).2 := by
  have hns : ¬ |choke| < 0.1 := not_lt.mpr h1
  have hr0 : (0 : ℝ) ≤ |choke| * 0.15 := by positivity
  unfold chokeFS
  rw [if_neg hns]
  dsimp only
  by_cases hpos : choke > 0
  · rw [if_pos hpos, chokeErode_eq_foldl, chokeSampled_small _ hr0 h2,
      List.foldl_cons, List.foldl_nil]
    exact min_eq_right (hb 0 0).2
  · rw [if_neg hpos, chokeDilate_eq_foldl, chokeSampled_small _ hr0 h2,
      List.foldl_cons, List.foldl_nil]
    exact max_eq_right (hb 0 0).1

/-- Witness for C10 at choke 2 on a constant matte of value 1/2. -/
theorem chokePass_small_radius_identity_witness :
    (chokeFS 2 (fun _ _ => (⟨0, 0, 0⟩, 1 / 2))).2
      = ((fun (_ _ : ℝ) => ((⟨0, 0, 0⟩ : Vec3), (1 : ℝ) / 2)) 0 0).2 :=
  chokePass_small_radius_identity 2 (fun _ _ => (⟨0, 0, 0⟩, 1 / 2))
    (by rw [abs_of_pos (by norm_num : (0 : ℝ) < 2)]; norm_num)
    (by rw [abs_of_pos (by norm_num : (0 : ℝ) < 2)]; norm_num)
    (fun _ _ => Set.mem_Icc.mpr ⟨by norm_num, by norm_num⟩)

/-- C4 counterexample: at alpha exactly 0.95 the Status mode renders blue,
not white, because the shader tests `alpha > 0.95` strictly; the claimed
band `alpha >= 0.95 -> white` fails at this input. -/
theorem statusColor_boundary_counterexample :
    statusColor (0.95 : ℝ) = ⟨0.3, 0.5, 1⟩ ∧ statusColor (0.95 : ℝ) ≠ ⟨1, 1, 1⟩ := by
  have h : statusColor (0.95 : ℝ) = ⟨0.3, 0.5, 1⟩ := by
    unfold statusColor
    rw [if_neg (by norm_num : ¬((0.95 : ℝ) > 0.95)),
      if_neg (by norm_num : ¬((0.95 : ℝ) < 0.05)),
      if_pos (by norm_num : (0.95 : ℝ) > 0.7)]
  refine ⟨h, ?_⟩
  rw [h]
  intro hx
  injection hx with e1 e2 e3
  norm_num at e1

/-- C4 amended: the Status bands are cut by the strict comparisons of the
shader: black on alpha < 0.05, red on 0.05 <= alpha <= 0.4, yellow on
0.4 < alpha <= 0.7, blue on 0.7 < alpha <= 0.95, white on alpha > 0.95;
the five characterising conditions partition the line, so exactly one band
applies to any alpha. -/
theorem statusColor_bands (a : ℝ) :
    (statusColor a = ⟨0, 0, 0⟩ ↔ a < 0.05) ∧
    (statusColor a = ⟨1, 0, 0⟩ ↔ 0.05 ≤ a ∧ a ≤ 0.4) ∧
    (statusColor a = ⟨1, 1, 0⟩ ↔ 0.4 < a ∧ a ≤ 0.7) ∧
    (statusColor a = ⟨0.3, 0.5, 1⟩ ↔ 0.7 < a ∧ a ≤ 0.95) ∧
    (statusColor a = ⟨1, 1, 1⟩ ↔ 0.95 < a) := by
  unfold statusColor
  split_ifs with h1 h2 h3 h4 <;>
    refine ⟨⟨fun hx => ?_, fun hx => ?_⟩, ⟨fun hx => ?_, fun hx => ?_⟩,
      ⟨fun hx => ?_, fun hx => ?_⟩, ⟨fun hx => ?_, fun hx => ?_⟩,
      ⟨fun hx => ?_, fun hx => ?_⟩⟩ <;>
    first
      | rfl
      | (constructor <;> linarith)
      | linarith
      | (injection hx with e1 e2 e3; norm_num at e1 e2 e3)

/-- C5 counterexample: the contrast pivot is not clamped away from 1; at
midPoint 100 (pivot exactly 1), input alpha 1 and contrast 100 the shader
evaluates `(alpha - pivot) / (1 - pivot) = 0 / 0`, a zero-divisor division
(IEEE NaN), although alpha is in [0,1], midPoint in [0,100] and contrast
in (1,200]. -/
theorem applyContrastChecked_pivot_one_counterexample :
    applyContrastChecked 1 100 100 = none ∧
      (1 : ℝ) ∈ Set.Icc (0 : ℝ) 1 ∧ (100 : ℝ) ∈ Set.Icc (0 : ℝ) 100 ∧
      (1 : ℝ) < 100 ∧ (100 : ℝ) ≤ 200 := by
  refine ⟨?_, Set.mem_Icc.mpr ⟨by norm_num, by norm_num⟩,
    Set.mem_Icc.mpr ⟨by norm_num, by norm_num⟩, by norm_num, by norm_num⟩
  unfold applyContrastChecked checkedDiv
  rw [if_pos (by norm_num : (100 : ℝ) > 1),
    if_neg (by norm_num : ¬((1 : ℝ) < 100 * 0.01)),
    if_pos (by norm_num : (1 : ℝ) - 100 * 0.01 = 0)]
  rfl

/-- C5 amended: the contrast pivot is not clamped, but for every alpha in
[0,1], midPoint in [0,100) and contrast in (1,200] both contrast divisions
have a nonzero divisor (the pivot-zero division is unreachable since
alpha >= 0), and the soften blur's divisor `max(weight, 0.001)` is always
positive, so no division by zero occurs in those steps. -/
theorem contrast_soften_divisions_guarded :
    (∀ alpha contrast midPoint : ℝ, 0 ≤ alpha → alpha ≤ 1 →
      0 ≤ midPoint → midPoint < 100 → 1 < contrast → contrast ≤ 200 →
      (applyContrastChecked alpha contrast midPoint).isSome = true) ∧
    (∀ (soften : ℝ) (tex : ℝ → ℝ → Vec3 × ℝ),
      (0 : ℝ) < max (softenAcc (soften * 0.2) tex).2 0.001) := by
  constructor
  · intro alpha contrast midPoint ha0 ha1 hm0 hm1 hc1 hc2
    unfold applyContrastChecked checkedDiv
    rw [if_pos hc1]
    by_cases h : alpha < midPoint * 0.01
    · rw [if_pos h]
      have hpiv : midPoint * 0.01 ≠ 0 := by
        intro h0
        rw [h0] at h
        linarith
      rw [if_neg hpiv]
      rfl
    · rw [if_neg h, if_neg (by intro h0; nlinarith : ¬((1 : ℝ) - midPoint * 0.01 = 0))]
      rfl
  · intro soften tex
    exact lt_of_lt_of_le (by norm_num) (le_max_right _ _)

/-- Witness for the amended C5 at alpha 1/2, contrast 100, midPoint 50. -/
theorem contrast_soften_divisions_guarded_witness :
    (applyContrastChecked ((1 : ℝ) / 2) 100 50).isSome = true :=
  contrast_soften_divisions_guarded.1 (1 / 2) 100 50 (by norm_num) (by norm_num)
    (by norm_num) (by norm_num) (by norm_num) (by norm_num)

/-- C7: the spill suppressor is the identity when `alpha < 0.05` or
`spillSuppression < 1` (hence at `spillSuppression = 0`), and at
`spillSuppression = 100` on a fully-opaque pixel with a green-family key
hue the green channel of the result is exactly the pixel's luma. -/
theorem suppressSpill_noop_and_luma (u : Params) (color : Vec3) (alpha : ℝ) :
    (alpha < 0.05 ∨ u.spillSuppression < 1 → suppressSpill u color alpha = color) ∧
    (u.spillSuppression = 0 → suppressSpill u color alpha = color) ∧
    (u.spillSuppression = 100 → 0.2 < (rgb2hsv u.keyColor).x →
      (rgb2hsv u.keyColor).x < 0.5 → (suppressSpill u color 1).y = luma3 color) := by
  refine ⟨fun h => ?_, fun h => ?_, fun h hg1 hg2 => ?_⟩
  · unfold suppressSpill
    rw [if_pos h]
  · unfold suppressSpill
    rw [if_pos (Or.inr (by rw [h]; norm_num))]
  · unfold suppressSpill
    rw [h, if_neg (by norm_num : ¬((1 : ℝ) < 0.05 ∨ (100 : ℝ) < 1))]
    dsimp only
    rw [if_pos ⟨hg1, hg2⟩]
    unfold mix
    ring

theorem rgb2hsv_green : rgb2hsv (⟨0, 1, 0⟩ : Vec3) = ⟨1 / 3, 1, 1⟩ := by
  unfold rgb2hsv
  norm_num [max_def, min_def, Int.fract_eq_self]

/-- Witness for C7: green key (0,1,0), full suppression, opaque pixel. -/
theorem suppressSpill_noop_and_luma_witness :
    (suppressSpill ⟨⟨0, 1, 0⟩, 50, 50, 50, 50, 0, 100, 0, 50, 0, 0, 0⟩
        ⟨1 / 2, 1 / 4, 1 / 8⟩ 1).y = luma3 ⟨1 / 2, 1 / 4, 1 / 8⟩ :=
  (suppressSpill_noop_and_luma ⟨⟨0, 1, 0⟩, 50, 50, 50, 50, 0, 100, 0, 50, 0, 0, 0⟩
      ⟨1 / 2, 1 / 4, 1 / 8⟩ 1).2.2 rfl
    (by dsimp only; rw [rgb2hsv_green]; norm_num)
    (by dsimp only; rw [rgb2hsv_green]; norm_num)

/-- C8: an RGB input with all channels equal yields hue 0 and saturation 0,
and on nonnegative channels the conversion's divisions by `delta` and by
`Cmax` never see a zero divisor (they are guarded by `Cmax > Cmin`), so no
NaN is produced: the checked conversion returns the unchecked result. -/
theorem rgb2hsv_gray_and_guarded (c : Vec3) :
    (c.x = c.y → c.y = c.z → rgb2hsv c = ⟨0, 0, c.x⟩) ∧
    (0 ≤ c.x → 0 ≤ c.y → 0 ≤ c.z → rgb2hsvChecked c = some (rgb2hsv c)) := by
  obtain ⟨x, y, z⟩ := c
  dsimp only
  constructor
  · intro h1 h2
    subst h1
    subst h2
    simp [rgb2hsv, max_self, min_self, lt_self_iff_false]
  · intro hx hy hz
    by_cases hgt : max x (max y z) > min x (min y z)
    · have hCmin0 : (0 : ℝ) ≤ min x (min y z) := le_min hx (le_min hy hz)
      have hCmax : max x (max y z) ≠ 0 := (lt_of_le_of_lt hCmin0 hgt).ne'
      have hdelta : max x (max y z) - min x (min y z) ≠ 0 := sub_ne_zero.mpr (ne_of_gt hgt)
      simp only [rgb2hsvChecked, rgb2hsv, checkedDiv]
      rw [if_pos hgt, if_pos hgt, if_neg hCmax]
      by_cases h1 : x = max x (max y z)
      · rw [if_pos h1, if_pos h1, if_neg hdelta]
        rfl
      · rw [if_neg h1, if_neg h1]
        by_cases h2 : y = max x (max y z)
        · rw [if_pos h2, if_pos h2, if_neg hdelta]
          rfl
        · rw [if_neg h2, if_neg h2, if_neg hdelta]
          rfl
    · simp only [rgb2hsvChecked, rgb2hsv, checkedDiv]
      rw [if_neg hgt, if_neg hgt]

/-- Witness for C8 at the gray pixel (1/2, 1/2, 1/2). -/
theorem rgb2hsv_gray_and_guarded_witness :
    rgb2hsv ⟨1 / 2, 1 / 2, 1 / 2⟩ = ⟨0, 0, 1 / 2⟩ ∧
      rgb2hsvChecked ⟨1 / 2, 1 / 2, 1 / 2⟩ = some (rgb2hsv ⟨1 / 2, 1 / 2, 1 / 2⟩) :=
  ⟨(rgb2hsv_gray_and_guarded ⟨1 / 2, 1 / 2, 1 / 2⟩).1 rfl rfl,
    (rgb2hsv_gray_and_guarded ⟨1 / 2, 1 / 2, 1 / 2⟩).2 (by norm_num) (by norm_num) (by norm_num)⟩

theorem clamp_add_one_ge (b : ℝ) (hb : 0 ≤ b) : clamp (b + 1) 0 1 = 1 := by
  unfold clamp
  rw [max_eq_left (by linarith), min_eq_right (by linarith)]

/-- C9 counterexample: the matte generator does not stay NaN-free on the
whole clamped parameter domain: with pedestal 100 (so the pre-contrast
alpha clamps to exactly 1), midPoint 100 and contrast 100, the contrast
step computes `(1-1)/(1-1) = 0/0` (IEEE NaN) and the final
`clamp(NaN, 0, 1)` propagates it, so the output is not in [0,1]. -/
theorem chromaKeyChecked_nan_counterexample :
    chromaKeyChecked ⟨⟨0, 1, 0⟩, 50, 50, 50, 50, 100, 0, 100, 100, 0, 0, 0⟩
        ⟨0, 1, 0⟩ (1 / 2) = none ∧
      (100 : ℝ) ∈ Set.Icc (0 : ℝ) 100 ∧ (1 : ℝ) < 100 ∧ (100 : ℝ) ≤ 200 := by
  refine ⟨?_, Set.mem_Icc.mpr ⟨by norm_num, by norm_num⟩, by norm_num, by norm_num⟩
  have hb0 : 0 ≤ baseAlpha ⟨⟨0, 1, 0⟩, 50, 50, 50, 50, 100, 0, 100, 100, 0, 0, 0⟩ ⟨0, 1, 0⟩ := by
    dsimp only [baseAlpha]
    exact (clamp01_mem _).1
  dsimp only [chromaKeyChecked, preContrastAlpha]
  rw [show ((50 : ℝ) - 50) * 0.02 = 0 by norm_num, mul_zero, sub_zero, mul_zero, add_zero,
    show (100 : ℝ) * 0.01 = 1 by norm_num, clamp_add_one_ge _ hb0]
  rw [show applyContrastChecked (1 : ℝ) 100 100 = none by
    unfold applyContrastChecked checkedDiv
    rw [if_pos (by norm_num : (100 : ℝ) > 1),
      if_neg (by norm_num : ¬((1 : ℝ) < 100 * 0.01)),
      if_pos (by norm_num : (1 : ℝ) - 100 * 0.01 = 0)]
    rfl]
  rfl

/-- C9 amended: the matte generator keeps alpha in [0,1] and takes no
zero-divisor division whenever midPoint < 100 (the checked pipeline
returns exactly the unchecked result); the choke and soften passes keep
alpha in [0,1] whenever their input matte alphas are in [0,1]. -/
theorem alpha_stages_checked_unit_interval :
    (∀ (u : Params) (color : Vec3) (luminance : ℝ), u.midPoint < 100 →
        chromaKeyChecked u color luminance = some (chromaKey u color luminance) ∧
          chromaKey u color luminance ∈ Set.Icc (0 : ℝ) 1) ∧
    (∀ (choke : ℝ) (tex : ℝ → ℝ → Vec3 × ℝ),
        (∀ x y : ℝ, (tex x y).2 ∈ Set.Icc (0 : ℝ) 1) →
        (chokeFS choke tex).2 ∈ Set.Icc (0 : ℝ) 1) ∧
    (∀ (soften : ℝ) (tex : ℝ → ℝ → Vec3 × ℝ),
        (∀ x y : ℝ, (tex x y).2 ∈ Set.Icc (0 : ℝ) 1) →
        (softenFS soften tex).2 ∈ Set.Icc (0 : ℝ) 1) := by
  refine ⟨?_, ?_, ?_⟩
  · intro u color luminance hm
    have hpre : 0 ≤ preContrastAlpha u color luminance := by
      dsimp only [preContrastAlpha]
      exact (clamp01_mem _).1
    refine ⟨?_, ?_⟩
    · dsimp only [chromaKeyChecked, chromaKey]
      rw [applyContrastChecked_eq _ _ _ hpre hm]
      rfl
    · dsimp only [chromaKey]
      exact clamp01_mem _
  · intro choke tex hb
    unfold chokeFS
    by_cases h : |choke| < 0.1
    · rw [if_pos h]
      exact hb 0 0
    · rw [if_neg h]
      dsimp only
      by_cases hp : choke > 0
      · rw [if_pos hp]
        unfold chokeErode
        refine foldl_preserve (· ∈ Set.Icc (0 : ℝ) 1) _ _ 1
          (Set.mem_Icc.mpr ⟨zero_le_one, le_refl 1⟩) (fun a p ha => ?_)
        dsimp only
        split_ifs
        · exact Set.mem_Icc.mpr
            ⟨le_min (Set.mem_Icc.mp ha).1 (Set.mem_Icc.mp (hb p.1 p.2)).1,
              le_trans (min_le_left _ _) (Set.mem_Icc.mp ha).2⟩
        · exact ha
      · rw [if_neg hp]
        unfold chokeDilate
        refine foldl_preserve (· ∈ Set.Icc (0 : ℝ) 1) _ _ 0
          (Set.mem_Icc.mpr ⟨le_refl 0, zero_le_one⟩) (fun a p ha => ?_)
        dsimp only
        split_ifs
        · exact Set.mem_Icc.mpr
            ⟨le_trans (Set.mem_Icc.mp ha).1 (le_max_left _ _),
              max_le (Set.mem_Icc.mp ha).2 (Set.mem_Icc.mp (hb p.1 p.2)).2⟩
        · exact ha
  · intro soften tex hb
    unfold softenFS
    by_cases h : soften < 0.1
    · rw [if_pos h]
      exact hb 0 0
    · rw [if_neg h]
      dsimp only
      have hP : 0 ≤ (softenAcc (soften * 0.2) tex).1 ∧
          (softenAcc (soften * 0.2) tex).1 ≤ (softenAcc (soften * 0.2) tex).2 := by
        unfold softenAcc
        refine foldl_preserve (fun acc : ℝ × ℝ => 0 ≤ acc.1 ∧ acc.1 ≤ acc.2) _ _ (0, 0)
          ⟨le_refl 0, le_refl 0⟩ (fun acc p hacc => ?_)
        dsimp only
        split_ifs
        · have hw0 : (0 : ℝ) ≤ 1 / (1 + Real.sqrt (p.1 * p.1 + p.2 * p.2)) := by positivity
          refine ⟨add_nonneg hacc.1
            (mul_nonneg (Set.mem_Icc.mp (hb p.1 p.2)).1 hw0), ?_⟩
          have hle : (tex p.1 p.2).2 * (1 / (1 + Real.sqrt (p.1 * p.1 + p.2 * p.2)))
              ≤ 1 / (1 + Real.sqrt (p.1 * p.1 + p.2 * p.2)) :=
            mul_le_of_le_one_left hw0 (Set.mem_Icc.mp (hb p.1 p.2)).2
          linarith [hacc.2]
        · exact hacc
      have hdpos : (0 : ℝ) < max (softenAcc (soften * 0.2) tex).2 0.001 :=
        lt_of_lt_of_le (by norm_num) (le_max_right _ _)
      exact Set.mem_Icc.mpr ⟨div_nonneg hP.1 hdpos.le,
        (div_le_one hdpos).mpr (le_trans hP.2 (le_max_left _ _))⟩

/-- Witness for the amended C9 at midPoint 50 on the key pixel. -/
theorem alpha_stages_checked_unit_interval_witness :
    chromaKeyChecked ⟨⟨0, 1, 0⟩, 50, 50, 50, 50, 0, 0, 100, 50, 0, 0, 0⟩ ⟨0, 1, 0⟩ (1 / 2)
        = some (chromaKey ⟨⟨0, 1, 0⟩, 50, 50, 50, 50, 0, 0, 100, 50, 0, 0, 0⟩
            ⟨0, 1, 0⟩ (1 / 2)) :=
  (alpha_stages_checked_unit_interval.1 ⟨⟨0, 1, 0⟩, 50, 50, 50, 50, 0, 0, 100, 50, 0, 0, 0⟩
    ⟨0, 1, 0⟩ (1 / 2) (by norm_num)).1

end ChromaKey
